import Mathlib

/-!
Verification of the Nebenkosten utility-meter analytics engine.

Shallow embedding of the interpolation / composition / anomaly-detection
core found in `Nebenkosten/src` and `workflows_dagster/src` plus
`workflows_dagster/dagster_project/assets/analytics_assets.py`.

Conventions of the embedding:
* A data point is a pair `(timestamp, value) : ℚ × ℚ`.
* Timestamps are rational numbers.  For the daily-series functions the unit
  is days (a calendar midnight is an integer); for the monthly functions the
  unit is months (month `m` covers the half-open interval `[m, m+1)` and the
  month-end instant / month-end label is represented as `m + 31/32`, a point
  strictly inside the month, matching pandas' `Period.end_time` lying after
  every mid-month instant used here and strictly before the next month).
* All arithmetic is exact rational arithmetic; float expressions of the form
  `|a - b| / s > c` with `s = sqrt v` are translated to the equivalent
  `v > 0 ∧ (a - b)^2 > c^2 * v`.
* `pandas` NaN-propagation is translated to `Option` where a statistic can be
  missing, and comparisons against NaN are `false`, as in IEEE floats.
-/

/-- A single reading / consumption point: `(timestamp, value)`. -/
abbrev Pt : Type := ℚ × ℚ

/-- First match by timestamp, defaulting to `0` — the semantics of a pandas
left-merge on `timestamp` followed by `fillna(0)`, for frames without
duplicate timestamps. -/
def lookup0 (l : List Pt) (t : ℚ) : ℚ :=
  match l.find? (fun p => p.1 == t) with
  | some p => p.2
  | none => 0

/-- Stable insertion (by timestamp) used to model `DataFrame.sort_values('timestamp')`. -/
def insertByTs (p : Pt) : List Pt → List Pt
  | [] => [p]
  | q :: qs => if p.1 ≤ q.1 then p :: q :: qs else q :: insertByTs p qs

/-- Stable sort by timestamp (`sort_values('timestamp')`). -/
def sortByTs (l : List Pt) : List Pt := l.foldr insertByTs []

/-- `drop_duplicates(subset=['timestamp'])` — keep the first row of every
timestamp; `seen` accumulates the timestamps already emitted. -/
def dedupTsGo (seen : List ℚ) : List Pt → List Pt
  | [] => []
  | p :: ps => if p.1 ∈ seen then dedupTsGo seen ps else p :: dedupTsGo (p.1 :: seen) ps

/-- `drop_duplicates(subset=['timestamp'])` — keep the first row of every
timestamp. -/
def dedupTs (l : List Pt) : List Pt := dedupTsGo [] l

section CalculatorDefs

/-!
### Consumption calculators

`workflows_dagster/src/calculator.py`,
`ConsumptionCalculator.calculate_consumption_from_readings` (lines 22-68):
`diff()`, `fillna(0)` for the first row, `clip(lower=0)`.
-/

/-- `calculate_consumption_from_readings`: first differences of the value
column with the first row set to `0` and negatives clipped to `0`.
Timestamps are kept unchanged. -/
def calculateConsumptionFromReadings (l : List Pt) : List Pt :=
  match l with
  | [] => []
  | (t0, v0) :: rest => (t0, 0) :: diffGo v0 rest
where
  /-- difference against the previous raw value, clipped at `0`. -/
  diffGo : ℚ → List Pt → List Pt
    | _, [] => []
    | prev, (t, v) :: rest => (t, max 0 (v - prev)) :: diffGo v rest

/-!
`workflows_dagster/dagster_project/assets/analytics_assets.py`,
`virtual_meter_data` (lines 764-937): start from the base meter's
consumption, left-merge each subtract meter on timestamp with missing rows
treated as `0`, apply the configured unit conversion (a positive rational
multiplier: `* factor` for m³→kWh, `* (1/factor)` for kWh→m³), subtract,
and clip the final result to `≥ 0`.
Each subtract meter is given as `(series, conversion multiplier)`.
-/

/-- Dagster `virtual_meter_data`: iterated aligned subtraction followed by a
single `clip(lower=0)`. -/
def virtualMeterDagster (base : List Pt) (subs : List (List Pt × ℚ)) : List Pt :=
  let run := subs.foldl
    (fun acc sf => acc.map (fun p => (p.1, p.2 - sf.2 * lookup0 sf.1 p.1))) base
  run.map (fun p => (p.1, max 0 p.2))

end CalculatorDefs

section RobustMonthlyDefs

/-!
### Robust monthly consumption

`Nebenkosten/src/calculator.py`,
`ConsumptionCalculator._calculate_monthly_consumption_robust` (lines 65-118).
Time is measured in months; month `m` covers `[m, m+1)`; `pd.Period.start_time`
is `m` and `pd.Period.end_time` is represented by `m + monthEndOffset`.
-/

/-- The representation of a month-end instant inside month `m`
(`Period.end_time` is the last instant strictly before the next month). -/
def monthEndOffset : ℚ := 31 / 32

/-- Month-end instant / month-end label of month `m`. -/
def monthEnd (m : ℤ) : ℚ := (m : ℚ) + monthEndOffset

/-- `index.get_indexer([t], method='nearest')` for a monotonic index:
the point minimising `|timestamp - t|`, ties resolved to the later
timestamp. `none` only for the empty frame. -/
def nearestPt (l : List Pt) (t : ℚ) : Option Pt :=
  match l with
  | [] => none
  | p :: ps => some (ps.foldl (fun best q => if |q.1 - t| ≤ |best.1 - t| then q else best) p)

/-- Value of the nearest point (`0` for an empty frame, which the callers
exclude). -/
def nearestVal (l : List Pt) (t : ℚ) : ℚ := ((nearestPt l t).map Prod.snd).getD 0

/-- List of month numbers `⌊min ts⌋ .. ⌊max ts⌋` (`pd.period_range`). -/
def monthRange (tmin tmax : ℚ) : List ℤ :=
  if ⌊tmax⌋ < ⌊tmin⌋ then []
  else (List.range ((⌊tmax⌋ - ⌊tmin⌋).toNat + 1)).map (fun k => ⌊tmin⌋ + (k : ℤ))

/-- Per-month loop body of `_calculate_monthly_consumption_robust`.
`prev` carries `prev_month_end_value` (`none` before the first month).
The Python branch chain is: if `prev` exists and `end ≥ prev` then
`end - prev`; elif `end < (prev or +inf)` then `end - start`
(this branch also catches the first month, where `prev` is `None`);
else `0`; finally `max(0, ·)`. -/
def robustMonthlyGo (series : List Pt) : Option ℚ → List ℤ → List Pt
  | _, [] => []
  | prev, m :: ms =>
    let sv := nearestVal series (m : ℚ)
    let ev := nearestVal series (monthEnd m)
    let c : ℚ :=
      match prev with
      | some pv => if pv ≤ ev then ev - pv else ev - sv
      | none => ev - sv
    (monthEnd m, max 0 c) :: robustMonthlyGo series (some ev) ms

/-- `_calculate_monthly_consumption_robust` over a non-empty series sorted by
timestamp: one consumption row per month between the series' first and last
timestamps. -/
def robustMonthly (series : List Pt) : List Pt :=
  match series.head?, series.getLast? with
  | some p0, some pl => robustMonthlyGo series none (monthRange p0.1 pl.1)
  | _, _ => []

end RobustMonthlyDefs

section C2Proof

theorem calculateConsumption_nonneg (l : List Pt) :
    ∀ p ∈ calculateConsumptionFromReadings l, 0 ≤ p.2 := by
  match l with
  | [] => intro p hp; simp [calculateConsumptionFromReadings] at hp
  | (t0, v0) :: rest =>
    intro p hp
    simp only [calculateConsumptionFromReadings, List.mem_cons] at hp
    rcases hp with h | h
    · simp [h]
    · induction rest generalizing v0 with
      | nil => simp [calculateConsumptionFromReadings.diffGo] at h
      | cons q qs ih =>
        simp only [calculateConsumptionFromReadings.diffGo, List.mem_cons] at h
        rcases h with h | h
        · simp [h]
        · exact ih q.2 h

theorem robustMonthlyGo_nonneg (series : List Pt) :
    ∀ prev months, ∀ p ∈ robustMonthlyGo series prev months, 0 ≤ p.2 := by
  intro prev months
  induction months generalizing prev with
  | nil => intro p hp; simp [robustMonthlyGo] at hp
  | cons m ms ih =>
    intro p hp
    simp only [robustMonthlyGo, List.mem_cons] at hp
    rcases hp with h | h
    · simp [h]
    · exact ih (some (nearestVal series (monthEnd m))) p h

theorem robustMonthly_nonneg (series : List Pt) :
    ∀ p ∈ robustMonthly series, 0 ≤ p.2 := by
  intro p hp
  unfold robustMonthly at hp
  cases h0 : series.head? with
  | none => rw [h0] at hp; cases series.getLast? <;> simp at hp
  | some p0 =>
    cases hl : series.getLast? with
    | none => rw [h0, hl] at hp; simp at hp
    | some pl =>
      rw [h0, hl] at hp
      exact robustMonthlyGo_nonneg series none _ p hp

theorem virtualMeterDagster_nonneg (base : List Pt) (subs : List (List Pt × ℚ)) :
    ∀ p ∈ virtualMeterDagster base subs, 0 ≤ p.2 := by
  intro p hp
  unfold virtualMeterDagster at hp
  simp only [List.mem_map] at hp
  obtain ⟨q, _, hq⟩ := hp
  rw [← hq]
  exact le_max_left 0 q.2

/-- Claim C2: every consumption value produced by the consumption calculators
(daily first differences, the robust monthly boundary procedure, and the
virtual-meter subtraction) is `≥ 0`; negative differences are clipped to `0`
rather than emitted. -/
theorem C2_consumption_nonneg :
    (∀ (l : List Pt), ∀ p ∈ calculateConsumptionFromReadings l, 0 ≤ p.2) ∧
    (∀ (series : List Pt), ∀ p ∈ robustMonthly series, 0 ≤ p.2) ∧
    (∀ (base : List Pt) (subs : List (List Pt × ℚ)),
      ∀ p ∈ virtualMeterDagster base subs, 0 ≤ p.2) :=
  ⟨calculateConsumption_nonneg, robustMonthly_nonneg, virtualMeterDagster_nonneg⟩

set_option maxRecDepth 10000 in
/-- Witness for C2 on concrete data: a decreasing cumulative series, a
resetting monthly series, and a virtual meter whose subtraction exceeds the
base. -/
theorem C2_consumption_nonneg_witness :
    (0 : ℚ) ≤ ((1 : ℚ), (0 : ℚ)).2 ∧ (0 : ℚ) ≤ ((monthEnd 0, (0 : ℚ)) : Pt).2 ∧
      (0 : ℚ) ≤ ((1 : ℚ), (0 : ℚ)).2 :=
  ⟨C2_consumption_nonneg.1 [(0, 5), (1, 3)] (1, 0) (by with_unfolding_all decide),
   C2_consumption_nonneg.2.1 [(1/2, 5)] (monthEnd 0, 0) (by with_unfolding_all decide),
   C2_consumption_nonneg.2.2 [(1, 100)] [([(1, 150)], 1)] (1, 0)
     (by with_unfolding_all decide)⟩

end C2Proof

section C5Proof

/-- Specification form of the robust monthly loop, written from the amended
claim: if the month-end value is `≥` the previous month's end value the
consumption is `end - prev end`; otherwise — including the first month,
which has no previous end value — it is `max 0 (end - start)`. -/
def robustMonthlySpecGo (series : List Pt) : Option ℚ → List ℤ → List Pt
  | _, [] => []
  | prev, m :: ms =>
    let sv := nearestVal series (m : ℚ)
    let ev := nearestVal series (monthEnd m)
    let c : ℚ :=
      match prev with
      | some pv => if pv ≤ ev then ev - pv else max 0 (ev - sv)
      | none => max 0 (ev - sv)
    (monthEnd m, c) :: robustMonthlySpecGo series (some ev) ms

/-- Specification form of `_calculate_monthly_consumption_robust`. -/
def robustMonthlySpec (series : List Pt) : List Pt :=
  match series.head?, series.getLast? with
  | some p0, some pl => robustMonthlySpecGo series none (monthRange p0.1 pl.1)
  | _, _ => []

theorem robustMonthlyGo_eq_spec (series : List Pt) :
    ∀ months prev, robustMonthlyGo series prev months = robustMonthlySpecGo series prev months := by
  intro months
  induction months with
  | nil => intro prev; rfl
  | cons m ms ih =>
    intro prev
    simp only [robustMonthlyGo, robustMonthlySpecGo, ih]
    cases prev with
    | none => rfl
    | some pv =>
      by_cases h : pv ≤ nearestVal series (monthEnd m)
      · simp only [if_pos h]
        rw [max_eq_right (sub_nonneg.mpr h)]
      · simp only [if_neg h]

set_option maxRecDepth 10000 in
/-- Counterexample for claim C5: on the series with readings `(0.2, 100)` and
`(0.8, 150)` (both inside the first and only month), the robust monthly
procedure yields first-month consumption `50`, not `0` as the claim states —
the `elif month_end_value < (prev or +inf)` branch catches the first month
and computes `end - start` instead of `0`. -/
theorem C5_first_month_counterexample :
    (robustMonthly [(1/5, 100), (4/5, 150)]).map Prod.snd = [50] ∧ (50 : ℚ) ≠ 0 := by
  constructor
  · with_unfolding_all decide
  · norm_num

set_option maxRecDepth 10000 in
/-- Claim C5 (amended): for monthly frequency, consumption is computed from
the interpolated values nearest to the month's start and end instants; if
the month-end value is `≥` the previous month's end value, consumption is
`end − previous end`; if it decreased, consumption is `max 0 (end − start)`;
and the first month is treated by the same reset rule `max 0 (end − start)`
(not the constant `0` of the original claim).  The second conjunct checks
spec Scenario B: month-end readings `[100, 150, 20, 70]` produce
consumption `[0, 50, 0, 50]`. -/
theorem C5_monthly_robust_amended :
    (∀ series : List Pt, robustMonthly series = robustMonthlySpec series) ∧
    (robustMonthly [(monthEnd 0, 100), (monthEnd 1, 150), (monthEnd 2, 20), (monthEnd 3, 70)]).map
        Prod.snd = [0, 50, 0, 50] := by
  constructor
  · intro series
    unfold robustMonthly robustMonthlySpec
    cases series.head? <;> cases series.getLast? <;>
      simp only [robustMonthlyGo_eq_spec]
  · with_unfolding_all decide

end C5Proof

section RateEstimatorDefs

/-!
### Rate estimation

`workflows_dagster/src/data_processor.py`,
`DataProcessor.estimate_consumption_rate` (lines 57-187), identical in
selection logic to `Nebenkosten/src/data_processor.py` (lines 56-158).

The timestamps are first shifted to `days_since_start = t - t₀` (`t₀` the
first row's timestamp).  Both the scipy regression (method 1) and the
sklearn regression (method 2) are exact ordinary least squares on the same
data, so both are embedded by the same rational formulas `olsSlope` /
`olsR2`; the scipy p-value involves the t-distribution CDF and is not a
rational function of the data, so it is taken as an input `pValue` of the
embedding.  The `except` fallbacks (rate `0`, `R² 0`, `p 1`) coincide with
the rational convention `x / 0 = 0` for the degenerate inputs that make
`linregress` fail.
-/

/-- Ordinary least-squares slope of value against days-since-first-reading:
`(n·Σxy − Σx·Σy) / (n·Σx² − (Σx)²)`. -/
def olsSlope (l : List Pt) : ℚ :=
  match l with
  | [] => 0
  | p0 :: _ =>
    let n : ℚ := l.length
    let sx := (l.map (fun p => p.1 - p0.1)).sum
    let sy := (l.map Prod.snd).sum
    let sxy := (l.map (fun p => (p.1 - p0.1) * p.2)).sum
    let sxx := (l.map (fun p => (p.1 - p0.1) * (p.1 - p0.1))).sum
    (n * sxy - sx * sy) / (n * sxx - sx * sx)

/-- Coefficient of determination of the least-squares fit:
`(n·Σxy − Σx·Σy)² / ((n·Σx² − (Σx)²)·(n·Σy² − (Σy)²))`. -/
def olsR2 (l : List Pt) : ℚ :=
  match l with
  | [] => 0
  | p0 :: _ =>
    let n : ℚ := l.length
    let sx := (l.map (fun p => p.1 - p0.1)).sum
    let sy := (l.map Prod.snd).sum
    let sxy := (l.map (fun p => (p.1 - p0.1) * p.2)).sum
    let sxx := (l.map (fun p => (p.1 - p0.1) * (p.1 - p0.1))).sum
    let syy := (l.map (fun p => p.2 * p.2)).sum
    ((n * sxy - sx * sy) * (n * sxy - sx * sy)) /
      ((n * sxx - sx * sx) * (n * syy - sy * sy))

/-- Insertion into a sorted list of rationals (duplicates kept). -/
def insertLeQ (x : ℚ) : List ℚ → List ℚ
  | [] => [x]
  | y :: ys => if x ≤ y then x :: y :: ys else y :: insertLeQ x ys

/-- Sort a list of rationals ascending. -/
def sortQ (l : List ℚ) : List ℚ := l.foldr insertLeQ []

/-- `np.median`: middle element of the sorted list, or the average of the two
middle elements for even length (`0` for the empty list, which the caller
guards). -/
def medianQ (l : List ℚ) : ℚ :=
  let s := sortQ l
  let n := s.length
  if n = 0 then 0
  else if n % 2 = 1 then s.getD (n / 2) 0
  else (s.getD (n / 2 - 1) 0 + s.getD (n / 2) 0) / 2

/-- All pairwise slopes `(vⱼ − vᵢ)/(tⱼ − tᵢ)` over pairs `i < j` with
positive time difference. -/
def pairwiseRates : List Pt → List ℚ
  | [] => []
  | p :: ps =>
    (ps.filterMap (fun q => if p.1 < q.1 then some ((q.2 - p.2) / (q.1 - p.1)) else none)) ++
      pairwiseRates ps

/-- Method 3: median of the pairwise slopes (`0` when no pair has positive
time difference). -/
def medianPairwise (l : List Pt) : ℚ :=
  let rates := pairwiseRates l
  if rates.isEmpty then 0 else medianQ rates

/-- Method 4: simple first-to-last slope (`0` when the total time span is not
positive). -/
def simpleFirstLast (l : List Pt) : ℚ :=
  match l.head?, l.getLast? with
  | some p0, some pl =>
    let dt := pl.1 - p0.1
    if 0 < dt then (pl.2 - p0.2) / dt else 0
  | _, _ => 0

/-- `DataProcessor.estimate_consumption_rate`, returning only the chosen
rate (the returned `r²`/method label do not matter for the claims).
`pValue` is the p-value of the primary regression's significance test. -/
def estimateConsumptionRate (l : List Pt) (pValue : ℚ) : ℚ :=
  if l.length < 2 then 0
  else
    let scipyRate := olsSlope l
    let scipyR2 := olsR2 l
    let lrRate := olsSlope l
    let lrR2 := olsR2 l
    let medianRate := medianPairwise l
    let simpleRate := simpleFirstLast l
    let chosen :=
      if 4 ≤ l.length ∧ 7/10 < scipyR2 ∧ pValue < 1/20 then scipyRate
      else if 4 ≤ l.length ∧ 3/5 < lrR2 then lrRate
      else if 3 ≤ l.length ∧ 0 < medianRate then medianRate
      else simpleRate
    max 0 chosen

/-- The tiered selection policy exactly as the claim words it: primary
regression if `≥ 4` points with `R² > 0.7` and `p < 0.05`, else the
cross-check regression if `≥ 4` points with `R² > 0.6`, else the median
pairwise slope if `≥ 3` points and positive, else the simple first-to-last
slope; the result clamped to `≥ 0`. -/
def ratePolicySpec (l : List Pt) (pValue : ℚ) : ℚ :=
  max 0 <|
    if 4 ≤ l.length ∧ 7/10 < olsR2 l ∧ pValue < 1/20 then olsSlope l
    else if 4 ≤ l.length ∧ 3/5 < olsR2 l then olsSlope l
    else if 3 ≤ l.length ∧ 0 < medianPairwise l then medianPairwise l
    else simpleFirstLast l

end RateEstimatorDefs

section C7Proof

/-- Claim C7: for `≥ 2` readings, `estimate_consumption_rate` selects the
rate by the tiered policy (primary regression at `R² > 0.7`, `p < 0.05`
with `≥ 4` points; else cross-check regression at `R² > 0.6` with `≥ 4`
points; else positive median pairwise slope with `≥ 3` points; else the
simple first-to-last slope) and the returned rate is clamped to `≥ 0`. -/
theorem C7_rate_policy (l : List Pt) (pValue : ℚ) (h : 2 ≤ l.length) :
    estimateConsumptionRate l pValue = ratePolicySpec l pValue ∧
      0 ≤ estimateConsumptionRate l pValue := by
  have hlt : ¬ l.length < 2 := by omega
  constructor
  · unfold estimateConsumptionRate ratePolicySpec
    rw [if_neg hlt]
  · unfold estimateConsumptionRate
    rw [if_neg hlt]
    exact le_max_left 0 _

/-- Witness for C7 at a concrete two-point input (selection falls through to
the simple first-to-last slope). -/
theorem C7_rate_policy_witness :
    estimateConsumptionRate [(0, 0), (1, 5)] 1 = ratePolicySpec [(0, 0), (1, 5)] 1 ∧
      0 ≤ estimateConsumptionRate [(0, 0), (1, 5)] 1 :=
  C7_rate_policy [(0, 0), (1, 5)] 1 (by decide)

end C7Proof

section HighFreqReducerDefs

/-!
### High-frequency reduction

`workflows_dagster/src/data_processor.py`,
`DataProcessor.reduce_high_frequency_data` (lines 189-273); the
`Nebenkosten` variant (lines 322-369) is identical up to threshold names.
The thresholds are the constructor parameters
`high_freq_threshold_medium = 100`, `high_freq_threshold_very = 1000`,
`target_reduction_points = 50` (dagster defaults).
Time is measured in days; `resample('D')` bins a row with timestamp `t`
into calendar day `⌊t⌋` and labels the bin `⌊t⌋` (start of day).
-/

/-- `df['timestamp'].min()` — `⊤` for the empty frame. -/
def tsMin (l : List Pt) : WithTop ℚ := (l.map Prod.fst).minimum

/-- `df['timestamp'].max()` — `⊥` for the empty frame. -/
def tsMax (l : List Pt) : WithBot ℚ := (l.map Prod.fst).maximum

/-- `iloc[::step]` — every `step`-th row, starting at row 0 (`i` is the
running index). -/
def everyNthGo (step : ℕ) : ℕ → List Pt → List Pt
  | _, [] => []
  | i, x :: xs =>
    if i % step = 0 then x :: everyNthGo step (i + 1) xs else everyNthGo step (i + 1) xs

/-- `iloc[::step]`. -/
def everyNth (step : ℕ) (l : List Pt) : List Pt := everyNthGo step 0 l

/-- `resample('D').last().dropna()` on a frame sorted by timestamp: keep the
last row of each calendar day, relabelled to the start of the day. -/
def dailyLast : List Pt → List Pt
  | [] => []
  | [(t, v)] => [((⌊t⌋ : ℚ), v)]
  | (t, v) :: (t', v') :: r =>
    if ⌊t⌋ = ⌊t'⌋ then dailyLast ((t', v') :: r)
    else ((⌊t⌋ : ℚ), v) :: dailyLast ((t', v') :: r)

/-- Strategy selection of `reduce_high_frequency_data`: even-spaced sampling
above the very-dense threshold, daily resampling above the medium threshold,
pass-through otherwise. -/
def reduceCore (medium very target : ℕ) (raw : List Pt) : List Pt :=
  if very < raw.length then
    let firstPart := raw.take 1
    let lastPart := raw.drop (raw.length - 1)
    let middle := (raw.drop 1).dropLast
    if 0 < middle.length then
      let step := max 1 (middle.length / (target - 2))
      firstPart ++ everyNth step middle ++ lastPart
    else firstPart ++ lastPart
  else if medium < raw.length then dailyLast raw
  else raw

/-- The "ensure first and last points are preserved" block: re-insert the
original first row when the reduced minimum moved later, the original last
row when the reduced maximum moved earlier, then
`drop_duplicates(subset=['timestamp'])` and `sort_values('timestamp')`. -/
def reinsertEnds (raw reduced : List Pt) : List Pt :=
  if reduced.isEmpty then reduced
  else
    let r1 := if tsMin raw < tsMin reduced then raw.take 1 ++ reduced else reduced
    let r2 := if tsMax r1 < tsMax raw then r1 ++ raw.drop (raw.length - 1) else r1
    sortByTs (dedupTs r2)

/-- `DataProcessor.reduce_high_frequency_data`. -/
def reduceHighFrequencyData (medium very target : ℕ) (raw : List Pt) : List Pt :=
  if raw.length ≤ target then raw
  else reinsertEnds raw (reduceCore medium very target raw)

end HighFreqReducerDefs

section C8Lemmas

theorem insertByTs_perm (p : Pt) (l : List Pt) : List.Perm (insertByTs p l) (p :: l) := by
  induction l with
  | nil => rfl
  | cons q qs ih =>
    unfold insertByTs
    by_cases h : p.1 ≤ q.1
    · rw [if_pos h]
    · rw [if_neg h]
      exact (ih.cons q).trans (List.Perm.swap p q qs)

theorem sortByTs_perm (l : List Pt) : List.Perm (sortByTs l) l := by
  induction l with
  | nil => rfl
  | cons p ps ih => exact (insertByTs_perm p (sortByTs ps)).trans (ih.cons p)

theorem mem_ts_sortByTs {x : ℚ} {l : List Pt} :
    x ∈ (sortByTs l).map Prod.fst ↔ x ∈ l.map Prod.fst :=
  ((sortByTs_perm l).map Prod.fst).mem_iff

theorem mem_ts_dedupTsGo {x : ℚ} : ∀ {l : List Pt} {seen : List ℚ},
    x ∈ (dedupTsGo seen l).map Prod.fst ↔ (x ∈ l.map Prod.fst ∧ x ∉ seen) := by
  intro l
  induction l with
  | nil => intro seen; simp [dedupTsGo]
  | cons p ps ih =>
    intro seen
    unfold dedupTsGo
    by_cases hp : p.1 ∈ seen
    · rw [if_pos hp, ih]
      simp only [List.map_cons, List.mem_cons]
      constructor
      · exact fun ⟨h1, h2⟩ => ⟨Or.inr h1, h2⟩
      · rintro ⟨(rfl | h1), h2⟩
        · exact absurd hp h2
        · exact ⟨h1, h2⟩
    · rw [if_neg hp]
      simp only [List.map_cons, List.mem_cons, ih, List.mem_cons]
      constructor
      · rintro (rfl | ⟨h1, h2⟩)
        · exact ⟨Or.inl rfl, hp⟩
        · exact ⟨Or.inr h1, fun hs => h2 (Or.inr hs)⟩
      · rintro ⟨(rfl | h1), h2⟩
        · exact Or.inl rfl
        · by_cases hxp : x = p.1
          · exact Or.inl hxp
          · exact Or.inr ⟨h1, fun hs => by
              rcases hs with hs | hs
              · exact hxp hs
              · exact h2 hs⟩

theorem mem_ts_dedupTs {x : ℚ} {l : List Pt} :
    x ∈ (dedupTs l).map Prod.fst ↔ x ∈ l.map Prod.fst := by
  unfold dedupTs
  rw [mem_ts_dedupTsGo]
  simp

theorem tsMin_congr {l₁ l₂ : List Pt}
    (h : ∀ x, x ∈ l₁.map Prod.fst ↔ x ∈ l₂.map Prod.fst) : tsMin l₁ = tsMin l₂ := by
  unfold tsMin
  cases h₂ : (l₂.map Prod.fst).minimum with
  | top =>
    rw [List.minimum_eq_top] at h₂
    rw [List.minimum_eq_top, List.eq_nil_iff_forall_not_mem]
    intro x hx
    have hx₂ := (h x).mp hx
    rw [h₂] at hx₂
    simp at hx₂
  | coe a =>
    rw [List.minimum_eq_coe_iff] at h₂
    rw [List.minimum_eq_coe_iff]
    exact ⟨(h a).mpr h₂.1, fun b hb => h₂.2 b ((h b).mp hb)⟩

theorem tsMax_congr {l₁ l₂ : List Pt}
    (h : ∀ x, x ∈ l₁.map Prod.fst ↔ x ∈ l₂.map Prod.fst) : tsMax l₁ = tsMax l₂ := by
  unfold tsMax
  cases h₂ : (l₂.map Prod.fst).maximum with
  | bot =>
    rw [List.maximum_eq_bot] at h₂
    rw [List.maximum_eq_bot, List.eq_nil_iff_forall_not_mem]
    intro x hx
    have hx₂ := (h x).mp hx
    rw [h₂] at hx₂
    simp at hx₂
  | coe a =>
    rw [List.maximum_eq_coe_iff] at h₂
    rw [List.maximum_eq_coe_iff]
    exact ⟨(h a).mpr h₂.1, fun b hb => h₂.2 b ((h b).mp hb)⟩

/-- The maximum of a non-empty frame's timestamps is attained. -/
theorem tsMax_attained {l : List Pt} (h : l ≠ []) :
    ∃ d : ℚ, tsMax l = (d : WithBot ℚ) ∧ d ∈ l.map Prod.fst ∧
      ∀ b ∈ l.map Prod.fst, b ≤ d := by
  cases hm : (l.map Prod.fst).maximum with
  | bot =>
    exfalso
    have := List.maximum_eq_bot.mp hm
    exact h (List.map_eq_nil_iff.mp this)
  | coe d =>
    obtain ⟨hd1, hd2⟩ := List.maximum_eq_coe_iff.mp hm
    exact ⟨d, hm, hd1, hd2⟩

theorem everyNthGo_subset {step : ℕ} {q : Pt} :
    ∀ {i : ℕ} {l : List Pt}, q ∈ everyNthGo step i l → q ∈ l := by
  intro i l
  induction l generalizing i with
  | nil => intro h; simp [everyNthGo] at h
  | cons x xs ih =>
    intro h
    unfold everyNthGo at h
    by_cases hc : i % step = 0
    · rw [if_pos hc] at h
      rcases List.mem_cons.mp h with rfl | h
      · exact List.mem_cons_self _ _
      · exact List.mem_cons_of_mem x (ih h)
    · rw [if_neg hc] at h
      exact List.mem_cons_of_mem x (ih h)

/-- In a strictly sorted frame the head's timestamp is a lower bound. -/
theorem head_ts_le {l : List Pt} (hne : l ≠ [])
    (hsort : l.Pairwise (fun a b => a.1 < b.1)) :
    ∀ p ∈ l, (l.head hne).1 ≤ p.1 := by
  match l with
  | q :: qs =>
    intro p hp
    rcases List.mem_cons.mp hp with rfl | hp
    · exact le_refl _
    · exact le_of_lt ((List.pairwise_cons.mp hsort).1 p hp)

/-- In a strictly sorted frame the last row's timestamp is an upper bound. -/
theorem ts_le_getLast : ∀ {l : List Pt},
    l.Pairwise (fun a b => a.1 < b.1) → ∀ (hne : l ≠ []), ∀ p ∈ l,
      p.1 ≤ (l.getLast hne).1 := by
  intro l
  induction l with
  | nil => intro _ hne; exact absurd rfl hne
  | cons q qs ih =>
    intro hsort hne p hp
    rcases List.mem_cons.mp hp with rfl | hp
    · cases qs with
      | nil => simp [List.getLast]
      | cons r rs =>
        rw [List.getLast_cons (by simp : r :: rs ≠ [])]
        exact le_of_lt
          ((List.pairwise_cons.mp hsort).1 _ (List.getLast_mem (by simp : r :: rs ≠ [])))
    · have hqs : qs ≠ [] := List.ne_nil_of_mem hp
      rw [List.getLast_cons hqs]
      exact ih (List.pairwise_cons.mp hsort).2 hqs p hp

theorem drop_length_sub_one : ∀ {l : List Pt} (hne : l ≠ []),
    l.drop (l.length - 1) = [l.getLast hne] := by
  intro l
  induction l with
  | nil => intro hne; exact absurd rfl hne
  | cons q qs ih =>
    intro hne
    cases qs with
    | nil => simp [List.getLast]
    | cons r rs =>
      rw [List.getLast_cons (by simp : r :: rs ≠ [])]
      have h1 : (q :: r :: rs).length - 1 = (r :: rs).length - 1 + 1 := by
        simp [List.length_cons]
      rw [h1, List.drop_succ_cons]
      exact ih (by simp : r :: rs ≠ [])

/-- Every row of `dailyLast l` carries the floor of some row of `l` as its
timestamp. -/
theorem dailyLast_ts_shape : ∀ {l : List Pt}, ∀ q ∈ dailyLast l,
    ∃ p ∈ l, q.1 = ((⌊p.1⌋ : ℤ) : ℚ) := by
  intro l
  induction l using dailyLast.induct with
  | case1 => intro q hq; simp [dailyLast] at hq
  | case2 t v =>
    intro q hq
    simp only [dailyLast, List.mem_singleton] at hq
    exact ⟨(t, v), List.mem_singleton_self _, by rw [hq]⟩
  | case3 t v t' v' r heq ih =>
    intro q hq
    rw [dailyLast, if_pos heq] at hq
    obtain ⟨p, hp, he⟩ := ih q hq
    exact ⟨p, List.mem_cons_of_mem _ hp, he⟩
  | case4 t v t' v' r heq ih =>
    intro q hq
    rw [dailyLast, if_neg heq] at hq
    rcases List.mem_cons.mp hq with rfl | hq
    · exact ⟨(t, v), List.mem_cons_self _ _, rfl⟩
    · obtain ⟨p, hp, he⟩ := ih q hq
      exact ⟨p, List.mem_cons_of_mem _ hp, he⟩

/-- The floor of the head's timestamp appears among `dailyLast`'s labels. -/
theorem dailyLast_head_mem : ∀ {l : List Pt} (hne : l ≠ []),
    ((⌊(l.head hne).1⌋ : ℤ) : ℚ) ∈ (dailyLast l).map Prod.fst := by
  intro l
  induction l using dailyLast.induct with
  | case1 => intro hne; exact absurd rfl hne
  | case2 t v => intro _; simp [dailyLast]
  | case3 t v t' v' r heq ih =>
    intro _
    rw [dailyLast, if_pos heq]
    have hmem := ih (by simp : (t', v') :: r ≠ [])
    simp only [List.head_cons] at hmem ⊢
    rw [heq]
    exact hmem
  | case4 t v t' v' r heq ih =>
    intro _
    rw [dailyLast, if_neg heq]
    simp

/-- The floor of the last row's timestamp appears among `dailyLast`'s
labels. -/
theorem dailyLast_getLast_mem : ∀ {l : List Pt} (hne : l ≠ []),
    ((⌊(l.getLast hne).1⌋ : ℤ) : ℚ) ∈ (dailyLast l).map Prod.fst := by
  intro l
  induction l using dailyLast.induct with
  | case1 => intro hne; exact absurd rfl hne
  | case2 t v => intro _; simp [dailyLast, List.getLast]
  | case3 t v t' v' r heq ih =>
    intro hne
    rw [dailyLast, if_pos heq]
    rw [List.getLast_cons (by simp : (t', v') :: r ≠ [])]
    exact ih (by simp : (t', v') :: r ≠ [])
  | case4 t v t' v' r heq ih =>
    intro hne
    rw [dailyLast, if_neg heq]
    rw [List.getLast_cons (by simp : (t', v') :: r ≠ [])]
    simp only [List.map_cons, List.mem_cons]
    exact Or.inr (ih (by simp : (t', v') :: r ≠ []))

/-- Core correctness of the re-insertion block: if the reduced frame's
minimum is `c ≤` the raw head's timestamp, and every reduced timestamp is
`≤` the raw last timestamp, then after re-insertion the minimum is exactly
`c` and the maximum is exactly the raw last timestamp. -/
theorem reinsertEnds_spec {raw reduced : List Pt} (hraw : raw ≠ [])
    (hsort : raw.Pairwise (fun a b => a.1 < b.1)) (hred : reduced ≠ [])
    (c : ℚ) (hminred : tsMin reduced = (c : WithTop ℚ))
    (hc : c ≤ (raw.head hraw).1)
    (hub : ∀ x ∈ reduced.map Prod.fst, x ≤ (raw.getLast hraw).1) :
    tsMin (reinsertEnds raw reduced) = (c : WithTop ℚ) ∧
      tsMax (reinsertEnds raw reduced) = ((raw.getLast hraw).1 : WithBot ℚ) := by
  have hminraw : tsMin raw = ((raw.head hraw).1 : WithTop ℚ) := by
    unfold tsMin
    rw [List.minimum_eq_coe_iff]
    refine ⟨List.mem_map_of_mem Prod.fst (List.head_mem hraw), fun b hb => ?_⟩
    obtain ⟨p, hp, he⟩ := List.mem_map.mp hb
    rw [← he]; exact head_ts_le hraw hsort p hp
  have hmaxraw : tsMax raw = ((raw.getLast hraw).1 : WithBot ℚ) := by
    unfold tsMax
    rw [List.maximum_eq_coe_iff]
    refine ⟨List.mem_map_of_mem Prod.fst (List.getLast_mem hraw), fun b hb => ?_⟩
    obtain ⟨p, hp, he⟩ := List.mem_map.mp hb
    rw [← he]; exact ts_le_getLast hsort hraw p hp
  obtain ⟨hcmem, hclb⟩ := List.minimum_eq_coe_iff.mp hminred
  have hheadlast : (raw.head hraw).1 ≤ (raw.getLast hraw).1 :=
    head_ts_le hraw hsort _ (List.getLast_mem hraw)
  unfold reinsertEnds
  rw [if_neg (by simp [hred])]
  have hcond1 : ¬ tsMin raw < tsMin reduced := by
    rw [hminraw, hminred, WithTop.coe_lt_coe]
    exact not_lt.mpr hc
  rw [if_neg hcond1]
  have hr2mem : ∀ x,
      (x ∈ ((if tsMax reduced < tsMax raw then reduced ++ raw.drop (raw.length - 1)
        else reduced).map Prod.fst)) ↔
      (x ∈ reduced.map Prod.fst ∨ x = (raw.getLast hraw).1) := by
    intro x
    by_cases hco : tsMax reduced < tsMax raw
    · rw [if_pos hco, drop_length_sub_one hraw, List.map_append, List.mem_append]
      simp only [List.map_cons, List.map_nil, List.mem_singleton]
    · rw [if_neg hco]
      constructor
      · exact fun h => Or.inl h
      · rintro (h | rfl)
        · exact h
        · obtain ⟨d, hdeq, hdmem, hdub⟩ := tsMax_attained hred
          have hle : ((raw.getLast hraw).1 : WithBot ℚ) ≤ (d : WithBot ℚ) := by
            rw [← hdeq, ← hmaxraw]
            exact not_lt.mp hco
          rw [WithBot.coe_le_coe] at hle
          have : d = (raw.getLast hraw).1 := le_antisymm (hub d hdmem) hle
          rw [← this]
          exact hdmem
  have hfinalmem : ∀ x,
      (x ∈ (sortByTs (dedupTs (if tsMax reduced < tsMax raw
        then reduced ++ raw.drop (raw.length - 1) else reduced))).map Prod.fst) ↔
      (x ∈ reduced.map Prod.fst ∨ x = (raw.getLast hraw).1) := by
    intro x
    rw [mem_ts_sortByTs, mem_ts_dedupTs]
    exact hr2mem x
  constructor
  · unfold tsMin
    rw [List.minimum_eq_coe_iff]
    refine ⟨(hfinalmem c).mpr (Or.inl hcmem), fun b hb => ?_⟩
    rcases (hfinalmem b).mp hb with h | rfl
    · exact hclb b h
    · exact le_trans hc hheadlast
  · unfold tsMax
    rw [List.maximum_eq_coe_iff]
    refine ⟨(hfinalmem _).mpr (Or.inr rfl), fun b hb => ?_⟩
    rcases (hfinalmem b).mp hb with h | rfl
    · exact hub b h
    · exact le_refl _

end C8Lemmas

section C8Proof

set_option maxRecDepth 8000 in
/-- Counterexample for claim C8: 101 readings taken at noon of 101
consecutive days, reduced with the default thresholds (medium 100,
very-dense 1000, target 50).  The daily-resampling branch relabels rows to
the start of their calendar day, and the re-insertion block only guards
against the minimum moving *later*, so the output's earliest timestamp `0`
differs from the input's earliest timestamp `1/2`. -/
theorem C8_reduce_counterexample :
    tsMin (reduceHighFrequencyData 100 1000 50
        ((List.range 101).map (fun k => ((k : ℚ) + 1/2, (k : ℚ))))) ≠
      tsMin ((List.range 101).map (fun k => ((k : ℚ) + 1/2, (k : ℚ)))) := by
  with_unfolding_all decide

/-- Claim C8 (amended): for every non-empty strictly sorted input,
`reduce_high_frequency_data` always preserves the input's latest timestamp
exactly, and preserves the earliest timestamp in the pass-through and
even-spaced branches; the daily-resampling branch (strictly more than
`medium` points but at most `very` points, above the `target` threshold)
instead relabels the earliest timestamp to the start of its calendar day
`⌊t⌋`, which equals the original timestamp only for a reading taken exactly
at midnight. -/
theorem C8_reduce_extremes_amended (medium very target : ℕ) (raw : List Pt)
    (hne : raw ≠ []) (hsort : raw.Pairwise (fun a b => a.1 < b.1)) :
    tsMax (reduceHighFrequencyData medium very target raw) =
      ((raw.getLast hne).1 : WithBot ℚ) ∧
    tsMin (reduceHighFrequencyData medium very target raw) =
      ((if target < raw.length ∧ medium < raw.length ∧ ¬ very < raw.length
        then ((⌊(raw.head hne).1⌋ : ℤ) : ℚ) else (raw.head hne).1) : WithTop ℚ) := by
  have hminraw : tsMin raw = ((raw.head hne).1 : WithTop ℚ) := by
    unfold tsMin
    rw [List.minimum_eq_coe_iff]
    refine ⟨List.mem_map_of_mem Prod.fst (List.head_mem hne), fun b hb => ?_⟩
    obtain ⟨p, hp, he⟩ := List.mem_map.mp hb
    rw [← he]; exact head_ts_le hne hsort p hp
  have hmaxraw : tsMax raw = ((raw.getLast hne).1 : WithBot ℚ) := by
    unfold tsMax
    rw [List.maximum_eq_coe_iff]
    refine ⟨List.mem_map_of_mem Prod.fst (List.getLast_mem hne), fun b hb => ?_⟩
    obtain ⟨p, hp, he⟩ := List.mem_map.mp hb
    rw [← he]; exact ts_le_getLast hsort hne p hp
  have htake1 : raw.take 1 = [raw.head hne] := by
    cases raw with
    | nil => exact absurd rfl hne
    | cons q qs => simp
  unfold reduceHighFrequencyData
  by_cases h1 : raw.length ≤ target
  · rw [if_pos h1, if_neg (show ¬ (target < raw.length ∧ medium < raw.length ∧
      ¬ very < raw.length) by omega)]
    exact ⟨hmaxraw, hminraw⟩
  · rw [if_neg h1]
    unfold reduceCore
    by_cases h2 : very < raw.length
    · -- even-spaced sampling keeps the original first and last rows
      rw [if_pos h2, if_neg (show ¬ (target < raw.length ∧ medium < raw.length ∧
        ¬ very < raw.length) by omega)]
      set middle := (raw.drop 1).dropLast with hmid
      have hsub : ∀ x ∈ (if 0 < middle.length
          then raw.take 1 ++ everyNth (max 1 (middle.length / (target - 2))) middle ++
            raw.drop (raw.length - 1)
          else raw.take 1 ++ raw.drop (raw.length - 1)).map Prod.fst,
          x ∈ raw.map Prod.fst := by
        intro x hx
        by_cases hm : 0 < middle.length <;>
          [rw [if_pos hm] at hx; rw [if_neg hm] at hx] <;>
          [skip; skip] <;>
        · simp only [List.map_append, List.mem_append] at hx
          rcases hx with hx | hx
          · first
            | (rcases hx with hx | hx
               · rw [htake1] at hx
                 simp only [List.map_cons, List.map_nil, List.mem_singleton] at hx
                 rw [hx]
                 exact List.mem_map_of_mem Prod.fst (List.head_mem hne)
               · obtain ⟨p, hp, he⟩ := List.mem_map.mp hx
                 have : p ∈ raw :=
                   List.drop_subset 1 raw (List.dropLast_subset _ (everyNthGo_subset hp))
                 rw [← he]
                 exact List.mem_map_of_mem Prod.fst this)
            | (rw [htake1] at hx
               simp only [List.map_cons, List.map_nil, List.mem_singleton] at hx
               rw [hx]
               exact List.mem_map_of_mem Prod.fst (List.head_mem hne))
          · rw [drop_length_sub_one hne] at hx
            simp only [List.map_cons, List.map_nil, List.mem_singleton] at hx
            rw [hx]
            exact List.mem_map_of_mem Prod.fst (List.getLast_mem hne)
      have hredne : (if 0 < middle.length
          then raw.take 1 ++ everyNth (max 1 (middle.length / (target - 2))) middle ++
            raw.drop (raw.length - 1)
          else raw.take 1 ++ raw.drop (raw.length - 1)) ≠ [] := by
        by_cases hm : 0 < middle.length <;>
          [rw [if_pos hm]; rw [if_neg hm]] <;>
          simp [htake1]
      have hheadmem : (raw.head hne).1 ∈ (if 0 < middle.length
          then raw.take 1 ++ everyNth (max 1 (middle.length / (target - 2))) middle ++
            raw.drop (raw.length - 1)
          else raw.take 1 ++ raw.drop (raw.length - 1)).map Prod.fst := by
        by_cases hm : 0 < middle.length <;>
          [rw [if_pos hm]; rw [if_neg hm]] <;>
          simp [htake1]
      have hmin : tsMin (if 0 < middle.length
          then raw.take 1 ++ everyNth (max 1 (middle.length / (target - 2))) middle ++
            raw.drop (raw.length - 1)
          else raw.take 1 ++ raw.drop (raw.length - 1)) =
          ((raw.head hne).1 : WithTop ℚ) := by
        unfold tsMin
        rw [List.minimum_eq_coe_iff]
        refine ⟨hheadmem, fun b hb => ?_⟩
        obtain ⟨p, hp, he⟩ := List.mem_map.mp (hsub b hb)
        rw [← he]; exact head_ts_le hne hsort p hp
      have hub : ∀ x ∈ (if 0 < middle.length
          then raw.take 1 ++ everyNth (max 1 (middle.length / (target - 2))) middle ++
            raw.drop (raw.length - 1)
          else raw.take 1 ++ raw.drop (raw.length - 1)).map Prod.fst,
          x ≤ (raw.getLast hne).1 := by
        intro x hx
        obtain ⟨p, hp, he⟩ := List.mem_map.mp (hsub x hx)
        rw [← he]; exact ts_le_getLast hsort hne p hp
      obtain ⟨hra, hrb⟩ := reinsertEnds_spec hne hsort hredne _ hmin
        (le_refl _) hub
      exact ⟨hrb, hra⟩
    · rw [if_neg h2]
      by_cases h3 : medium < raw.length
      · -- daily resampling: the earliest label is the floor of the head
        rw [if_pos h3, if_pos (show target < raw.length ∧ medium < raw.length ∧
          ¬ very < raw.length by omega)]
        have hredne : dailyLast raw ≠ [] := by
          intro hcon
          have := dailyLast_head_mem hne
          rw [hcon] at this
          simp at this
        have hmin : tsMin (dailyLast raw) =
            (((⌊(raw.head hne).1⌋ : ℤ) : ℚ) : WithTop ℚ) := by
          unfold tsMin
          rw [List.minimum_eq_coe_iff]
          refine ⟨dailyLast_head_mem hne, fun b hb => ?_⟩
          obtain ⟨q, hq, he⟩ := List.mem_map.mp hb
          obtain ⟨p, hp, hfl⟩ := dailyLast_ts_shape q hq
          rw [← he, hfl]
          exact_mod_cast Int.floor_mono (head_ts_le hne hsort p hp)
        have hub : ∀ x ∈ (dailyLast raw).map Prod.fst, x ≤ (raw.getLast hne).1 := by
          intro x hx
          obtain ⟨q, hq, he⟩ := List.mem_map.mp hx
          obtain ⟨p, hp, hfl⟩ := dailyLast_ts_shape q hq
          rw [← he, hfl]
          calc ((⌊p.1⌋ : ℤ) : ℚ) ≤ p.1 := Int.floor_le p.1
            _ ≤ (raw.getLast hne).1 := ts_le_getLast hsort hne p hp
        obtain ⟨hra, hrb⟩ := reinsertEnds_spec hne hsort hredne _ hmin
          (Int.floor_le _) hub
        exact ⟨hrb, hra⟩
      · -- pass-through inside the re-insertion block
        rw [if_neg h3, if_neg (show ¬ (target < raw.length ∧ medium < raw.length ∧
          ¬ very < raw.length) by omega)]
        obtain ⟨hra, hrb⟩ := reinsertEnds_spec hne hsort hne _ hminraw
          (le_refl _) (fun x hx => by
            obtain ⟨p, hp, he⟩ := List.mem_map.mp hx
            rw [← he]; exact ts_le_getLast hsort hne p hp)
        exact ⟨hrb, hra⟩

/-- Witness for C8 (amended) at a two-point input, which takes the
pass-through branch. -/
theorem C8_reduce_extremes_witness :
    tsMax (reduceHighFrequencyData 100 1000 50 [((0 : ℚ), (1 : ℚ)), (1/2, 2)]) =
      ((1/2 : ℚ) : WithBot ℚ) ∧
    tsMin (reduceHighFrequencyData 100 1000 50 [((0 : ℚ), (1 : ℚ)), (1/2, 2)]) =
      ((0 : ℚ) : WithTop ℚ) := by
  have h := C8_reduce_extremes_amended 100 1000 50 [((0 : ℚ), (1 : ℚ)), (1/2, 2)]
    (by decide) (by with_unfolding_all decide)
  constructor
  · rw [h.1]; with_unfolding_all decide
  · rw [h.2]; with_unfolding_all decide

end C8Proof

section DailySeriesDefs

/-!
### Standardized daily series

`workflows_dagster/src/data_processor.py`,
`DataProcessor.create_standardized_daily_series` (lines 275-519); the
`Nebenkosten` variant (lines 371-534) has the same window / grid logic and
differs only in the value interpolation (seasonal weighting), which does not
change the emitted timestamps.  Time is measured in days; the date-string
arguments `start_date`, `end_date`, `installation_date`,
`deinstallation_date` are midnights, i.e. integers.
-/

/-- Sorted duplicate-free insertion, used to model `sorted(set(...))`. -/
def insertSortedQ (x : ℚ) : List ℚ → List ℚ
  | [] => [x]
  | y :: ys =>
    if x < y then x :: y :: ys else if x = y then y :: ys else y :: insertSortedQ x ys

/-- `sorted(set(l))`. -/
def sortedUnionQ (l : List ℚ) : List ℚ := l.foldr insertSortedQ []

/-- Helper of `interpAt`: interpolate at `t` strictly after the known point
`(tp, vp)`, scanning the remaining known points. -/
def interpAtGo (t : ℚ) : ℚ → ℚ → List Pt → ℚ
  | _, vp, [] => vp
  | tp, vp, (t1, v1) :: r =>
    if t ≤ t1 then vp + (v1 - vp) * (t - tp) / (t1 - tp) else interpAtGo t t1 v1 r

/-- pandas `interpolate(method='time')` followed by `ffill().bfill()`,
evaluated at the instant `t` against the known points `pts` (sorted by
timestamp, distinct): time-weighted linear interpolation between
neighbouring known points, the first known value before the first point
(`bfill`), the last known value after the last point. -/
def interpAt (pts : List Pt) (t : ℚ) : ℚ :=
  match pts with
  | [] => 0
  | (t0, v0) :: rest => if t ≤ t0 then v0 else interpAtGo t t0 v0 rest

/-- `pd.date_range(start, end, freq='D')` as integer days (empty when
`end < start`). -/
def dailyRange (a b : ℤ) : List ℤ :=
  if b < a then [] else (List.range ((b - a).toNat + 1)).map (fun k : ℕ => a + (k : ℤ))

/-- `effective_start = max(start_ts, installation_ts)`; a missing
installation date defaults to the requested start. -/
def effectiveStart (startD : ℤ) (inst : Option ℤ) : ℤ := max startD (inst.getD startD)

/-- `effective_end = min(deinstallation_ts or end_ts, end_ts)`. -/
def effectiveEnd (endD : ℤ) (deinst : Option ℤ) : ℤ := min (deinst.getD endD) endD

/-- Backward extrapolation (lines 366-430): when the earliest reading is
after the effective start, prepend an extrapolated reading at the effective
start, or a zero-crossing reading (clamped to the effective start) when the
projection would go negative, or a zero reading when the rate is zero or
only one reading exists. -/
def backwardExtend (effStart : ℚ) (pValue : ℚ) (raw : List Pt) : List Pt :=
  match raw with
  | [] => []
  | (t0, v0) :: _ =>
    if effStart < t0 then
      if 2 ≤ raw.length then
        if 0 < estimateConsumptionRate raw pValue then
          if v0 - estimateConsumptionRate raw pValue * (t0 - effStart) < 0 then
            if effStart < max (t0 - v0 / estimateConsumptionRate raw pValue) effStart then
              (effStart, 0) :: (max (t0 - v0 / estimateConsumptionRate raw pValue) effStart, 0) :: raw
            else (max (t0 - v0 / estimateConsumptionRate raw pValue) effStart, 0) :: raw
          else (effStart, v0 - estimateConsumptionRate raw pValue * (t0 - effStart)) :: raw
        else (effStart, 0) :: raw
      else (effStart, 0) :: raw
    else raw

/-- Forward extrapolation (lines 432-478): when the latest reading is before
the effective end, append an extrapolated reading at the effective end
(constant when the rate is zero or only one reading exists). -/
def forwardExtend (effEnd : ℚ) (pValue : ℚ) (raw : List Pt) : List Pt :=
  match raw.getLast? with
  | none => raw
  | some (tl, vl) =>
    if tl < effEnd then
      if 2 ≤ raw.length then
        if 0 < estimateConsumptionRate raw pValue then
          raw ++ [(effEnd, vl + estimateConsumptionRate raw pValue * (effEnd - tl))]
        else raw ++ [(effEnd, vl)]
      else raw ++ [(effEnd, vl)]
    else raw

/-- The interpolation / grid-extraction core (lines 480-509): form the
sorted union of the known timestamps and the daily grid, interpolate a value
at every timestamp, and select exactly the daily grid rows
(`.loc[daily_range]`). -/
def dailyGridSeries (known : List Pt) (grid : List ℚ) : List Pt :=
  ((sortedUnionQ (known.map Prod.fst ++ grid)).map (fun t => (t, interpAt known t))).filter
    (fun p => decide (p.1 ∈ grid))

/-- `DataProcessor.create_standardized_daily_series` minus fetching and
caching (the cache is modelled separately for claim C10): empty input gives
an empty frame; otherwise reduce high-frequency data (above the medium
threshold 100), extrapolate backward/forward across the effective window,
sort, de-duplicate, interpolate on the union grid and extract the daily
rows.  `pValue` feeds the rate estimator's significance test. -/
def createDailySeries (raw : List Pt) (startD endD : ℤ) (inst deinst : Option ℤ)
    (pValue : ℚ) : List Pt :=
  if raw.isEmpty then []
  else
    dailyGridSeries
      (dedupTs (sortByTs
        (forwardExtend ((effectiveEnd endD deinst : ℤ) : ℚ) pValue
          (backwardExtend ((effectiveStart startD inst : ℤ) : ℚ) pValue
            (if 100 < raw.length then reduceHighFrequencyData 100 1000 50 raw else raw)))))
      ((dailyRange (effectiveStart startD inst) (effectiveEnd endD deinst)).map
        (fun d : ℤ => (d : ℚ)))

end DailySeriesDefs

section C1Lemmas

theorem mem_insertSortedQ {a x : ℚ} : ∀ {l : List ℚ},
    a ∈ insertSortedQ x l ↔ a = x ∨ a ∈ l := by
  intro l
  induction l with
  | nil => simp [insertSortedQ]
  | cons y ys ih =>
    unfold insertSortedQ
    by_cases h1 : x < y
    · rw [if_pos h1]; simp
    · rw [if_neg h1]
      by_cases h2 : x = y
      · rw [if_pos h2]
        subst h2
        constructor
        · exact fun h => Or.inr h
        · rintro (rfl | h); exacts [List.mem_cons_self _ _, h]
      · rw [if_neg h2]
        simp only [List.mem_cons, ih]
        constructor
        · rintro (rfl | (h | h)); exacts [Or.inr (Or.inl rfl), Or.inl h, Or.inr (Or.inr h)]
        · rintro (rfl | (rfl | h))
          exacts [Or.inr (Or.inl rfl), Or.inl rfl, Or.inr (Or.inr h)]

theorem pairwise_insertSortedQ {x : ℚ} : ∀ {l : List ℚ},
    l.Pairwise (· < ·) → (insertSortedQ x l).Pairwise (· < ·) := by
  intro l
  induction l with
  | nil => intro _; simp [insertSortedQ]
  | cons y ys ih =>
    intro hp
    obtain ⟨hy, hys⟩ := List.pairwise_cons.mp hp
    unfold insertSortedQ
    by_cases h1 : x < y
    · rw [if_pos h1]
      exact List.pairwise_cons.mpr ⟨fun b hb => by
        rcases List.mem_cons.mp hb with rfl | hb
        · exact h1
        · exact lt_trans h1 (hy b hb), hp⟩
    · rw [if_neg h1]
      by_cases h2 : x = y
      · rw [if_pos h2]; exact hp
      · rw [if_neg h2]
        have hyx : y < x := lt_of_le_of_ne (not_lt.mp h1) (fun h => h2 h.symm)
        refine List.pairwise_cons.mpr ⟨fun b hb => ?_, ih hys⟩
        rcases mem_insertSortedQ.mp hb with rfl | hb
        · exact hyx
        · exact hy b hb

theorem mem_sortedUnionQ {a : ℚ} : ∀ {l : List ℚ}, a ∈ sortedUnionQ l ↔ a ∈ l := by
  intro l
  induction l with
  | nil => simp [sortedUnionQ]
  | cons x xs ih =>
    show a ∈ insertSortedQ x (sortedUnionQ xs) ↔ _
    rw [mem_insertSortedQ, ih]
    simp

theorem pairwise_sortedUnionQ : ∀ (l : List ℚ), (sortedUnionQ l).Pairwise (· < ·) := by
  intro l
  induction l with
  | nil => simp [sortedUnionQ]
  | cons x xs ih => exact pairwise_insertSortedQ ih

theorem map_fst_filter_map (L : List ℚ) (f : ℚ → ℚ) (pred : ℚ → Bool) :
    ((L.map (fun t => (t, f t))).filter (fun p => pred p.1)).map Prod.fst =
      L.filter pred := by
  induction L with
  | nil => rfl
  | cons t ts ih =>
    simp only [List.map_cons]
    by_cases h : pred t
    · rw [List.filter_cons_of_pos (by simpa using h), List.filter_cons_of_pos h,
        List.map_cons, ih]
    · rw [List.filter_cons_of_neg (by simpa using h), List.filter_cons_of_neg h]
      exact ih

theorem filter_eq_of_sorted {L G : List ℚ} (hL : L.Pairwise (· < ·))
    (hG : G.Pairwise (· < ·)) (hsub : ∀ x ∈ G, x ∈ L) :
    L.filter (fun x => decide (x ∈ G)) = G := by
  apply List.eq_of_perm_of_sorted (r := (· ≤ ·))
  · rw [List.perm_ext_iff_of_nodup (List.Nodup.filter _ (hL.imp ne_of_lt))
      (hG.imp ne_of_lt)]
    intro a
    rw [List.mem_filter, decide_eq_true_iff]
    exact ⟨fun h => h.2, fun h => ⟨hsub a h, h⟩⟩
  · exact List.Pairwise.filter _ (hL.imp le_of_lt)
  · exact hG.imp le_of_lt

/-- Timestamp correctness of the interpolation / extraction core: whatever
the known points are, the extracted rows carry exactly the grid
timestamps. -/
theorem dailyGridSeries_ts (known : List Pt) (grid : List ℚ)
    (hG : grid.Pairwise (· < ·)) :
    (dailyGridSeries known grid).map Prod.fst = grid := by
  unfold dailyGridSeries
  rw [map_fst_filter_map (sortedUnionQ (known.map Prod.fst ++ grid))
    (fun t => interpAt known t) (fun x => decide (x ∈ grid))]
  apply filter_eq_of_sorted (pairwise_sortedUnionQ _) hG
  intro x hx
  rw [mem_sortedUnionQ]
  exact List.mem_append_right _ hx

theorem dailyRange_pairwise (a b : ℤ) : (dailyRange a b).Pairwise (· < ·) := by
  unfold dailyRange
  by_cases h : b < a
  · rw [if_pos h]; simp
  · rw [if_neg h]
    exact (List.pairwise_lt_range _).map _ (fun x y hxy => by
      have hxy' : (x : ℤ) < (y : ℤ) := by exact_mod_cast hxy
      omega)

theorem dailyRange_cast_pairwise (a b : ℤ) :
    ((dailyRange a b).map (fun d : ℤ => (d : ℚ))).Pairwise (· < ·) :=
  (dailyRange_pairwise a b).map _ (fun x y hxy => by exact_mod_cast hxy)

theorem dailyRange_length {a b : ℤ} (h : a ≤ b) :
    (dailyRange a b).length = (b - a).toNat + 1 := by
  unfold dailyRange
  rw [if_neg (not_lt.mpr h)]
  simp

end C1Lemmas

section C1Proof

/-- Claim C1: for non-empty raw readings and a non-empty effective window
`[max(start, installation), min(end, deinstallation)]`, the standardized
daily series contains exactly one row per calendar day of the effective
window — its timestamps are precisely the daily grid and its length is
`(effective end − effective start).days + 1`. -/
theorem C1_daily_series_grid (raw : List Pt) (startD endD : ℤ)
    (inst deinst : Option ℤ) (pValue : ℚ) (hraw : raw ≠ [])
    (heff : effectiveStart startD inst ≤ effectiveEnd endD deinst) :
    (createDailySeries raw startD endD inst deinst pValue).map Prod.fst =
      (dailyRange (effectiveStart startD inst) (effectiveEnd endD deinst)).map
        (fun d : ℤ => (d : ℚ)) ∧
    (createDailySeries raw startD endD inst deinst pValue).length =
      (effectiveEnd endD deinst - effectiveStart startD inst).toNat + 1 := by
  have hmap : (createDailySeries raw startD endD inst deinst pValue).map Prod.fst =
      (dailyRange (effectiveStart startD inst) (effectiveEnd endD deinst)).map
        (fun d : ℤ => (d : ℚ)) := by
    unfold createDailySeries
    rw [if_neg (by simpa using hraw)]
    exact dailyGridSeries_ts _ _ (dailyRange_cast_pairwise _ _)
  refine ⟨hmap, ?_⟩
  have hlen := congrArg List.length hmap
  rw [List.length_map, List.length_map] at hlen
  rw [hlen, dailyRange_length heff]

/-- Witness for C1: a single reading at day 0, requested window day 0 to
day 2, no installation or deinstallation dates — three daily rows at days
0, 1, 2. -/
theorem C1_daily_series_grid_witness :
    (createDailySeries [((0 : ℚ), (10 : ℚ))] 0 2 none none 0).map Prod.fst =
      (dailyRange 0 2).map (fun d : ℤ => (d : ℚ)) ∧
    (createDailySeries [((0 : ℚ), (10 : ℚ))] 0 2 none none 0).length = 3 := by
  have h := C1_daily_series_grid [((0 : ℚ), (10 : ℚ))] 0 2 none none 0
    (by decide) (by decide)
  refine ⟨h.1, ?_⟩
  rw [h.2]
  rfl

end C1Proof

section CacheDefs

/-!
### Daily-series cache

`workflows_dagster/src/data_processor.py` lines 318-321 and 512:
`cache_key = f"{entity_id}_daily_std_{start_date}_{end_date}"` — the key
carries only the meter id and the requested window, not the
installation/deinstallation dates and nothing about the fetched raw data.
The `Nebenkosten` variant (lines 376-379) uses the identical key.  The key
is modelled as the tuple of the interpolated fields.
-/

/-- The cache key `(entity_id, start_date, end_date)`. -/
abbrev CacheKey := String × ℤ × ℤ

/-- The `interpolated_series_cache` dict (newest entry first). -/
abbrev SeriesCache := List (CacheKey × List Pt)

/-- `create_standardized_daily_series` with its cache: return the cached
frame when the key is present; otherwise compute, caching the result unless
the raw data is empty (the empty-data early return does not cache).
Returns the frame together with the updated cache. -/
def createDailySeriesCached (cache : SeriesCache) (entityId : String)
    (startD endD : ℤ) (inst deinst : Option ℤ) (raw : List Pt) (pValue : ℚ) :
    List Pt × SeriesCache :=
  match cache.find? (fun e => e.1 == (entityId, startD, endD)) with
  | some e => (e.2, cache)
  | none =>
    if raw.isEmpty then ([], cache)
    else
      ((createDailySeries raw startD endD inst deinst pValue),
        ((entityId, startD, endD), createDailySeries raw startD endD inst deinst pValue)
          :: cache)

end CacheDefs

section C10Proof

/-- Claim C10: the daily-series cache key consists only of
(meter id, start date, end date) — a second call with the same meter id and
window but different installation/deinstallation dates, different raw data
and a different regression p-value returns the series cached by the first
call unchanged (given the first call had non-empty raw data and therefore
populated the cache). -/
theorem C10_cache_ignores_dates (cache : SeriesCache) (entityId : String)
    (startD endD : ℤ) (inst₁ deinst₁ inst₂ deinst₂ : Option ℤ)
    (raw₁ raw₂ : List Pt) (pV₁ pV₂ : ℚ) (h : raw₁ ≠ []) :
    (createDailySeriesCached
        (createDailySeriesCached cache entityId startD endD inst₁ deinst₁ raw₁ pV₁).2
        entityId startD endD inst₂ deinst₂ raw₂ pV₂).1 =
      (createDailySeriesCached cache entityId startD endD inst₁ deinst₁ raw₁ pV₁).1 := by
  unfold createDailySeriesCached
  cases hfind : cache.find? (fun e => e.1 == (entityId, startD, endD)) with
  | some e => simp [hfind]
  | none =>
    simp only [hfind, List.isEmpty_iff, if_neg h]
    rw [List.find?_cons_of_pos _ (by simp)]

end C10Proof

section VirtualMeterNebenDefs

/-!
### Virtual meter subtraction (Nebenkosten)

`Nebenkosten/src/main_app.py`, `_calculate_subtraction_virtual_meter`
(lines 76-161): start from the base meter's monthly consumption
(`base_consum` column over the base timestamps), for each subtract meter
apply the configured unit conversion (a rational multiplier `f`: `* factor`
for m³→kWh, `* (1/factor)` for kWh→m³, identity otherwise), left-merge on
timestamp with missing rows as `0`, and subtract into the running column;
then `consumption = clip(lower=0)` and in addition every row whose
*post-subtraction* running value is `≤ 0` is forced to exactly `0`.
Each subtract meter is given as `(series, conversion multiplier)`.
-/

/-- `_calculate_subtraction_virtual_meter`'s consumption column. -/
def vmSubtractNeben (base : List Pt) (subs : List (List Pt × ℚ)) : List Pt :=
  ((subs.foldl
      (fun acc sf => acc.map (fun p => (p.1, p.2 - sf.2 * lookup0 sf.1 p.1))) base).map
    (fun p => (p.1, if p.2 ≤ 0 then 0 else max 0 p.2)))

/-- Total timestamp-aligned, unit-converted subtraction at instant `t`. -/
def sumSubsAt (subs : List (List Pt × ℚ)) (t : ℚ) : ℚ :=
  subs.foldl (fun a sf => a + sf.2 * lookup0 sf.1 t) 0

end VirtualMeterNebenDefs

section C6Proof

theorem foldl_add_init (g : List Pt × ℚ → ℚ) :
    ∀ (l : List (List Pt × ℚ)) (a : ℚ),
      l.foldl (fun acc sf => acc + g sf) a = a + l.foldl (fun acc sf => acc + g sf) 0 := by
  intro l
  induction l with
  | nil => intro a; simp
  | cons x xs ih =>
    intro a
    show xs.foldl _ (a + g x) = a + xs.foldl _ (0 + g x)
    rw [ih (a + g x), ih (0 + g x)]
    ring

theorem sumSubsAt_cons (sf : List Pt × ℚ) (subs : List (List Pt × ℚ)) (t : ℚ) :
    sumSubsAt (sf :: subs) t = sf.2 * lookup0 sf.1 t + sumSubsAt subs t := by
  unfold sumSubsAt
  show subs.foldl _ (0 + sf.2 * lookup0 sf.1 t) = _
  rw [foldl_add_init (fun sf => sf.2 * lookup0 sf.1 t) subs (0 + sf.2 * lookup0 sf.1 t)]
  ring_nf

theorem lookup0_nonneg {l : List Pt} (h : ∀ p ∈ l, 0 ≤ p.2) (t : ℚ) :
    0 ≤ lookup0 l t := by
  unfold lookup0
  cases hf : l.find? (fun p => p.1 == t) with
  | none => exact le_refl 0
  | some p => exact h p (List.mem_of_find?_eq_some hf)

theorem sumSubsAt_nonneg {subs : List (List Pt × ℚ)}
    (h : ∀ sf ∈ subs, 0 ≤ sf.2 ∧ ∀ p ∈ sf.1, 0 ≤ p.2) (t : ℚ) :
    0 ≤ sumSubsAt subs t := by
  induction subs with
  | nil => exact le_refl 0
  | cons sf subs ih =>
    rw [sumSubsAt_cons]
    have h1 := h sf (List.mem_cons_self _ _)
    have h2 : 0 ≤ sf.2 * lookup0 sf.1 t :=
      mul_nonneg h1.1 (lookup0_nonneg h1.2 t)
    have h3 := ih (fun x hx => h x (List.mem_cons_of_mem _ hx))
    linarith

theorem vm_foldl_getElem (subs : List (List Pt × ℚ)) :
    ∀ (acc : List Pt) (i : ℕ),
      (subs.foldl
        (fun acc sf => acc.map (fun p => (p.1, p.2 - sf.2 * lookup0 sf.1 p.1))) acc)[i]? =
      acc[i]?.map (fun p => (p.1, p.2 - sumSubsAt subs p.1)) := by
  induction subs with
  | nil =>
    intro acc i
    show acc[i]? = _
    cases h : acc[i]? with
    | none => rfl
    | some p => show some p = some (p.1, p.2 - sumSubsAt [] p.1); simp [sumSubsAt]
  | cons sf subs ih =>
    intro acc i
    show (subs.foldl _ (acc.map _))[i]? = _
    rw [ih (acc.map (fun p => (p.1, p.2 - sf.2 * lookup0 sf.1 p.1))) i,
      List.getElem?_map]
    cases h : acc[i]? with
    | none => rfl
    | some p =>
      refine congrArg some ?_
      show (p.1, p.2 - sf.2 * lookup0 sf.1 p.1 - sumSubsAt subs p.1) =
        (p.1, p.2 - sumSubsAt (sf :: subs) p.1)
      rw [sumSubsAt_cons, Prod.mk.injEq]
      exact ⟨rfl, by ring⟩

/-- Claim C6: for every virtual meter, each period's output consumption is
the base consumption minus the timestamp-aligned, unit-converted subtract
consumptions, clipped to `≥ 0`; and (given the subtract data is
non-negative, as the pipeline's consumption always is) any period whose
base consumption is `≤ 0` yields exactly `0`. -/
theorem C6_virtual_meter (base : List Pt) (subs : List (List Pt × ℚ)) (i : ℕ)
    (hi : i < base.length)
    (hnn : ∀ sf ∈ subs, 0 ≤ sf.2 ∧ ∀ p ∈ sf.1, 0 ≤ p.2) :
    (vmSubtractNeben base subs)[i]? =
      some ((base.get ⟨i, hi⟩).1,
        max 0 ((base.get ⟨i, hi⟩).2 - sumSubsAt subs (base.get ⟨i, hi⟩).1)) ∧
    ((base.get ⟨i, hi⟩).2 ≤ 0 →
      (vmSubtractNeben base subs)[i]? = some ((base.get ⟨i, hi⟩).1, 0)) := by
  have hbase : base[i]? = some (base.get ⟨i, hi⟩) := List.getElem?_eq_getElem hi
  set p := base.get ⟨i, hi⟩ with hp
  have hrun : (vmSubtractNeben base subs)[i]? =
      some (p.1, if p.2 - sumSubsAt subs p.1 ≤ 0 then 0
        else max 0 (p.2 - sumSubsAt subs p.1)) := by
    unfold vmSubtractNeben
    rw [List.getElem?_map, vm_foldl_getElem subs base i, hbase]
    rfl
  have hfirst : (vmSubtractNeben base subs)[i]? =
      some (p.1, max 0 (p.2 - sumSubsAt subs p.1)) := by
    rw [hrun]
    by_cases hle : p.2 - sumSubsAt subs p.1 ≤ 0
    · rw [if_pos hle, max_eq_left hle]
    · rw [if_neg hle]
  refine ⟨hfirst, fun hv => ?_⟩
  rw [hfirst]
  have hs := sumSubsAt_nonneg hnn p.1
  rw [max_eq_left (by linarith)]

/-- Witness for C6, spec Scenario C: base monthly consumption
`[100, 120]`, one subtract meter `[30, 150]` (unit factor 1) — the virtual
meter yields `[70, 0]`; the second period is clipped because the
subtraction exceeds the base. -/
theorem C6_virtual_meter_witness :
    (vmSubtractNeben [((0 : ℚ), (100 : ℚ)), (1, 120)]
        [([((0 : ℚ), (30 : ℚ)), (1, 150)], 1)])[0]? = some (0, 70) ∧
    (vmSubtractNeben [((0 : ℚ), (100 : ℚ)), (1, 120)]
        [([((0 : ℚ), (30 : ℚ)), (1, 150)], 1)])[1]? = some (1, 0) := by
  constructor
  · rw [(C6_virtual_meter [((0 : ℚ), (100 : ℚ)), (1, 120)]
      [([((0 : ℚ), (30 : ℚ)), (1, 150)], 1)] 0 (by decide)
      (by with_unfolding_all decide)).1]
    with_unfolding_all decide
  · rw [(C6_virtual_meter [((0 : ℚ), (100 : ℚ)), (1, 120)]
      [([((0 : ℚ), (30 : ℚ)), (1, 150)], 1)] 1 (by decide)
      (by with_unfolding_all decide)).1]
    with_unfolding_all decide

end C6Proof

section C10Witness

/-- Witness for C10: a second call with changed installation date and
changed raw data returns the first call's cached series. -/
theorem C10_cache_ignores_dates_witness :
    (createDailySeriesCached
        (createDailySeriesCached [] "m" 0 2 none none [((0 : ℚ), (10 : ℚ))] 0).2
        "m" 0 2 (some 1) (some 1) [((0 : ℚ), (99 : ℚ)), (1, 100)] 1).1 =
      (createDailySeriesCached [] "m" 0 2 none none [((0 : ℚ), (10 : ℚ))] 0).1 :=
  C10_cache_ignores_dates [] "m" 0 2 none none (some 1) (some 1)
    [((0 : ℚ), (10 : ℚ))] [((0 : ℚ), (99 : ℚ)), (1, 100)] 0 1 (by decide)

end C10Witness

section MasterMeterDefs

/-!
### Master-meter composition

Two variants are embedded.

`workflows_dagster/dagster_project/assets/analytics_assets.py`,
`master_meter_series` (lines 441-651): for each frequency independently and
for each period, slice every source series to `[start_date, end_date]`,
convert units (a rational multiplier), compose (`single` takes the first
source, `sum` outer-merges on timestamp treating missing rows as `0`),
apply the offset when `apply_offset_from_previous_period` is set and the
previous period's last value is positive (offset = previous last − this
period's first value), append the part, and finally concatenate, sort by
timestamp and drop duplicate timestamps.  Crucially the *monthly* result is
built by this same per-period concatenation over the monthly source series
(the `("monthly", monthly_interpolated_series)` arm of the loop), not by
re-aggregating the daily result.

`Nebenkosten/src/main_app.py` (lines 276-413): similar per-period loop, but
sources are converted and composed over their *full* time range before
filtering; the offset anchor is the composed value nearest to the period
start within a 30-day tolerance (`reindex([p_start_ts], method='nearest',
tolerance=30 days)`); and the final monthly series is re-derived by
aggregating the concatenated daily series
(`aggregate_daily_to_frequency(final_master_daily_series, 'M')`,
lines 397-408).

Source meters are addressed by a natural-number id through a dictionary
`dict : ℕ → List Pt`.
-/

/-- `df.head?` value (`iloc[0]['value']`, `0` for an empty frame the callers
exclude). -/
def headVal (l : List Pt) : ℚ := (l.head?.map Prod.snd).getD 0

/-- `df.iloc[-1]['value']` (`0` for an empty frame the callers exclude). -/
def lastVal (l : List Pt) : ℚ := (l.getLast?.map Prod.snd).getD 0

/-- One master-meter period of the dagster configuration. -/
structure DPeriod where
  startDate : ℚ
  endDate : ℚ
  compSum : Bool
  applyOffset : Bool
  convFactor : ℚ
  sourceIds : List ℕ

/-- Slice a source series to the period window, then convert units. -/
def sourceSlice (per : DPeriod) (s : List Pt) : List Pt :=
  (s.filter (fun p => decide (per.startDate ≤ p.1) && decide (p.1 ≤ per.endDate))).map
    (fun p => (p.1, p.2 * per.convFactor))

/-- Outer merge on timestamp with summed values, missing rows as `0`
(left rows in order, then unmatched right rows). -/
def outerSum (l r : List Pt) : List Pt :=
  l.map (fun p => (p.1, p.2 + lookup0 r p.1)) ++
    r.filter (fun q => !(l.any (fun p => p.1 == q.1)))

/-- Period composition: `single` takes the (first) source, `sum`
successively outer-merges the rest onto the first. -/
def composePeriod (per : DPeriod) (dict : ℕ → List Pt) : List Pt :=
  match per.sourceIds.map (fun j => sourceSlice per (dict j)) with
  | [] => []
  | s :: rest => if per.compSum then rest.foldl outerSum s else s

/-- Offset application (lines 615-632): when flagged and the previous
period's last value is positive and the period has data, add
`previous last − this period's first value` to every value. -/
def applyOffsetD (prevLast : ℚ) (per : DPeriod) (pdata : List Pt) : List Pt :=
  if per.applyOffset = true ∧ 0 < prevLast ∧ pdata ≠ [] then
    pdata.map (fun p => (p.1, p.2 + (prevLast - headVal pdata)))
  else pdata

/-- One period's final data. -/
def periodDataD (dict : ℕ → List Pt) (prevLast : ℚ) (per : DPeriod) : List Pt :=
  applyOffsetD prevLast per (composePeriod per dict)

/-- The per-period loop: skip periods without sources; track the last value
of the last non-empty part as the next offset anchor (initially `0`). -/
def masterGoD (dict : ℕ → List Pt) (prevLast : ℚ) : List DPeriod → List (List Pt)
  | [] => []
  | per :: rest =>
    if per.sourceIds.isEmpty then masterGoD dict prevLast rest
    else
      periodDataD dict prevLast per ::
        masterGoD dict
          (if periodDataD dict prevLast per = [] then prevLast
           else lastVal (periodDataD dict prevLast per)) rest

/-- Concatenate all parts, sort by timestamp, drop duplicate timestamps
(lines 640-644). -/
def masterSeriesD (dict : ℕ → List Pt) (periods : List DPeriod) : List Pt :=
  dedupTs (sortByTs (masterGoD dict 0 periods).flatten)

/-- `aggregate_daily_to_frequency(df, 'M')`
(`workflows_dagster/src/data_processor.py` lines 521-583):
`resample('M').last().dropna()` on a frame sorted by timestamp — the last
row of every populated month, labelled at the month end. -/
def aggregateMonthly : List Pt → List Pt
  | [] => []
  | [(t, v)] => [(monthEnd ⌊t⌋, v)]
  | (t, v) :: (t', v') :: r =>
    if ⌊t⌋ = ⌊t'⌋ then aggregateMonthly ((t', v') :: r)
    else (monthEnd ⌊t⌋, v) :: aggregateMonthly ((t', v') :: r)

/-- The dagster master daily series. -/
def masterDagsterDaily (dict : ℕ → List Pt) (periods : List DPeriod) : List Pt :=
  masterSeriesD dict periods

/-- The dagster master monthly series: the same per-period concatenation
run over the monthly interpolated sources (which
`interpolated_meter_series` derives by monthly aggregation of the daily
series). -/
def masterDagsterMonthly (dict : ℕ → List Pt) (periods : List DPeriod) : List Pt :=
  masterSeriesD (fun j => aggregateMonthly (dict j)) periods

/-- One master-meter period of the Nebenkosten configuration. -/
structure NPeriod where
  startDate : ℚ
  endDate : ℚ
  compSum : Bool
  applyOffset : Bool
  convFactor : ℚ
  sourceIds : List ℕ

/-- Unit conversion of a full source series (`_convert_series_value_for_master`). -/
def convertNeben (per : NPeriod) (s : List Pt) : List Pt :=
  s.map (fun p => (p.1, p.2 * per.convFactor))

/-- Nebenkosten period composition over the sources' full time range: skip
empty sources; `sum` aligns on the sorted union of timestamps
(`pd.concat(axis=1).sum(axis=1)`, missing as `0`); `single` requires
exactly one non-empty source. -/
def composeNeben (per : NPeriod) (dict : ℕ → List Pt) : List Pt :=
  match ((per.sourceIds.map dict).filter (fun s => !s.isEmpty)).map (convertNeben per) with
  | [] => []
  | s :: rest =>
    if per.compSum then
      (sortedUnionQ ((s :: rest).map (fun l => l.map Prod.fst)).flatten).map
        (fun t => (t, ((s :: rest).map (fun l => lookup0 l t)).sum))
    else if rest.isEmpty then s else []

/-- `reindex([t], method='nearest', tolerance=tol)`: the value nearest to
`t` when within tolerance, otherwise missing. -/
def nearestWithin (l : List Pt) (t tol : ℚ) : Option ℚ :=
  match nearestPt l t with
  | none => none
  | some p => if |p.1 - t| ≤ tol then some p.2 else none

/-- Nebenkosten offset application (lines 350-383): anchored at the
composed value nearest to the period start within a 30-day tolerance; when
no anchor is found the offset is skipped. -/
def nebenOffset (prevSeg : Option (List Pt)) (per : NPeriod) (composed : List Pt) :
    List Pt :=
  match prevSeg with
  | none => composed
  | some seg =>
    if per.applyOffset = true ∧ ¬ seg.isEmpty ∧ ¬ composed.isEmpty then
      match nearestWithin composed per.startDate 30 with
      | some v => composed.map (fun p => (p.1, p.2 + (lastVal seg - v)))
      | none => composed
    else composed

/-- The Nebenkosten per-period loop: compose, offset, filter to the period
window, and keep non-empty segments (tracking the last appended segment as
the next offset anchor). -/
def nebenSegmentsGo (dict : ℕ → List Pt) (prevSeg : Option (List Pt)) :
    List NPeriod → List (List Pt)
  | [] => []
  | per :: rest =>
    if ((nebenOffset prevSeg per (composeNeben per dict)).filter
        (fun p => decide (per.startDate ≤ p.1) && decide (p.1 ≤ per.endDate))).isEmpty
    then nebenSegmentsGo dict prevSeg rest
    else
      ((nebenOffset prevSeg per (composeNeben per dict)).filter
        (fun p => decide (per.startDate ≤ p.1) && decide (p.1 ≤ per.endDate))) ::
      nebenSegmentsGo dict
        (some ((nebenOffset prevSeg per (composeNeben per dict)).filter
          (fun p => decide (per.startDate ≤ p.1) && decide (p.1 ≤ per.endDate)))) rest

/-- The Nebenkosten master daily series (lines 399-401): concatenate the
segments, sort by timestamp, drop duplicate timestamps. -/
def nebenMasterDaily (dict : ℕ → List Pt) (periods : List NPeriod) : List Pt :=
  dedupTs (sortByTs (nebenSegmentsGo dict none periods).flatten)

/-- The Nebenkosten master monthly series (lines 404-407): always re-derived
by aggregating the completed daily series. -/
def nebenMasterMonthly (dict : ℕ → List Pt) (periods : List NPeriod) : List Pt :=
  aggregateMonthly (nebenMasterDaily dict periods)

end MasterMeterDefs

section C3Proof

/-- Counterexample for claim C3: in the dagster `master_meter_series`, with
a single source that has daily points at times `0, 1/2, 1, 3/2` (months)
and one master period covering `[0, 1/2]`, the produced monthly series is
empty (the monthly source rows are labelled at month end `31/32`, outside
the period window), while aggregating the produced daily series yields one
monthly row — the monthly master series is built by concatenating monthly
period segments, not by aggregating the daily series. -/
theorem C3_dagster_counterexample :
    masterDagsterMonthly
        (fun _ => [((0 : ℚ), (10 : ℚ)), (1/2, 20), (1, 30), (3/2, 40)])
        [⟨0, 1/2, false, false, 1, [0]⟩] ≠
      aggregateMonthly (masterDagsterDaily
        (fun _ => [((0 : ℚ), (10 : ℚ)), (1/2, 20), (1, 30), (3/2, 40)])
        [⟨0, 1/2, false, false, 1, [0]⟩]) := by
  with_unfolding_all decide

/-- Claim C3 (amended): in the Nebenkosten pipeline the master's monthly
series is always re-derived by aggregating the completed continuous daily
series; the dagster `master_meter_series`, by contrast, concatenates
per-period monthly segments directly, and its monthly output can differ
from aggregating its daily output (see the counterexample). -/
theorem C3_master_monthly_amended (dict : ℕ → List Pt) (periods : List NPeriod) :
    nebenMasterMonthly dict periods =
      aggregateMonthly (nebenMasterDaily dict periods) := rfl

end C3Proof

section C4Proof

theorem headVal_map_offset (l : List Pt) (c : ℚ) (h : l ≠ []) :
    headVal (l.map (fun p => (p.1, p.2 + c))) = headVal l + c := by
  cases l with
  | nil => exact absurd rfl h
  | cons p ps => simp [headVal]

/-- Counterexample for claim C4 against the Nebenkosten offset logic:
period 1 covers `[0, 0]` with a single reading `(0, 100)`; period 2 is
offset-flagged, covers `[1, 10]`, and its source has readings `(0, 50)` and
`(3, 70)`.  The offset anchor (nearest to the period start `1` within 30
days) is the value `50` at time `0`, which lies *outside* the period
window, so the offset `100 − 50 = 50` makes the first in-window value
`70 + 50 = 120` — a boundary discontinuity of `20`, far above `1e-6`,
even though the offset was applied. -/
theorem C4_neben_counterexample :
    nebenSegmentsGo
        (fun j => if j = 0 then [((0 : ℚ), (100 : ℚ))] else [((0 : ℚ), (50 : ℚ)), (3, 70)])
        none [⟨0, 0, false, false, 1, [0]⟩, ⟨1, 10, false, true, 1, [1]⟩] =
      [[((0 : ℚ), (100 : ℚ))], [((3 : ℚ), (120 : ℚ))]] ∧
    ¬ |lastVal [((0 : ℚ), (100 : ℚ))] - headVal [((3 : ℚ), (120 : ℚ))]| <
        1 / 1000000 := by
  constructor
  · with_unfolding_all decide
  · rw [show lastVal [((0 : ℚ), (100 : ℚ))] = 100 by rfl,
      show headVal [((3 : ℚ), (120 : ℚ))] = 120 by rfl]
    norm_num

/-- Claim C4 (amended): in the dagster `master_meter_series`, whenever the
offset is actually applied — period `N+1` is flagged, the previous
period's last value is positive, and the period has composed data — the
first value of period `N+1` after the offset exactly equals the last value
of period `N`, so the boundary discrepancy is `0 < 1e-6`.  (The
Nebenkosten variant anchors the offset to the composed value nearest the
period start within 30 days, which can differ from the period's first
in-window value; see the counterexample.) -/
theorem C4_offset_continuity_dagster (dict : ℕ → List Pt) (prev : ℚ)
    (perN perN1 : DPeriod) (rest : List DPeriod)
    (h1 : ¬ perN.sourceIds.isEmpty) (h2 : ¬ perN1.sourceIds.isEmpty)
    (hpd : periodDataD dict prev perN ≠ [])
    (hcomp : composePeriod perN1 dict ≠ [])
    (hoff : perN1.applyOffset = true)
    (hpos : 0 < lastVal (periodDataD dict prev perN)) :
    |lastVal ((masterGoD dict prev (perN :: perN1 :: rest)).getD 0 []) -
      headVal ((masterGoD dict prev (perN :: perN1 :: rest)).getD 1 [])| <
      1 / 1000000 := by
  have hunfold : masterGoD dict prev (perN :: perN1 :: rest) =
      periodDataD dict prev perN ::
        periodDataD dict (lastVal (periodDataD dict prev perN)) perN1 ::
        masterGoD dict
          (if periodDataD dict (lastVal (periodDataD dict prev perN)) perN1 = []
           then lastVal (periodDataD dict prev perN)
           else lastVal (periodDataD dict (lastVal (periodDataD dict prev perN)) perN1))
          rest := by
    rw [masterGoD, if_neg (by simpa using h1), if_neg hpd, masterGoD,
      if_neg (by simpa using h2)]
  rw [hunfold]
  have hhead : headVal (periodDataD dict (lastVal (periodDataD dict prev perN)) perN1) =
      lastVal (periodDataD dict prev perN) := by
    unfold periodDataD applyOffsetD
    rw [if_pos ⟨hoff, hpos, hcomp⟩]
    rw [headVal_map_offset _ _ hcomp]
    ring
  show |lastVal (periodDataD dict prev perN) -
      headVal (periodDataD dict (lastVal (periodDataD dict prev perN)) perN1)| < _
  rw [hhead, sub_self, abs_zero]
  norm_num

/-- Witness for C4 (amended) at a concrete two-period master meter: source
0 covers days 0-1 ending at value 60, source 1 covers days 1-2 starting at
value 10; the flagged second period is offset by `60 − 10 = 50`. -/
theorem C4_offset_continuity_witness :
    |lastVal ((masterGoD
        (fun j => if j = 0 then [((0 : ℚ), (50 : ℚ)), (1, 60)]
          else [((1 : ℚ), (10 : ℚ)), (2, 20)]) 0
        [⟨0, 1, false, false, 1, [0]⟩, ⟨1, 2, false, true, 1, [1]⟩]).getD 0 []) -
      headVal ((masterGoD
        (fun j => if j = 0 then [((0 : ℚ), (50 : ℚ)), (1, 60)]
          else [((1 : ℚ), (10 : ℚ)), (2, 20)]) 0
        [⟨0, 1, false, false, 1, [0]⟩, ⟨1, 2, false, true, 1, [1]⟩]).getD 1 [])| <
      1 / 1000000 :=
  C4_offset_continuity_dagster
    (fun j => if j = 0 then [((0 : ℚ), (50 : ℚ)), (1, 60)]
      else [((1 : ℚ), (10 : ℚ)), (2, 20)]) 0
    ⟨0, 1, false, false, 1, [0]⟩ ⟨1, 2, false, true, 1, [1]⟩ []
    (by decide) (by decide)
    (by with_unfolding_all decide)
    (by with_unfolding_all decide)
    (by decide)
    (by with_unfolding_all decide)

end C4Proof

section AnomalyDefs

/-!
### Anomaly detection

`workflows_dagster/dagster_project/assets/analytics_assets.py`,
`anomaly_detection` (lines 945-1102).  Meters with fewer than 60 rows, or
fewer than 30 rows of positive consumption, are skipped.  The statistics of
the global z-score and IQR detectors are computed over the positive
("non-zero") consumption values only; all three flags are evaluated on
every row.  Float expressions `|x - m| / sqrt v > c` are translated to
`0 < v ∧ c² · v < (x - m)²` (`std = 0` makes the z-scores `0` or NaN in the
code, never a flag, matching the translation). -/

/-- Mean of a list of rationals (`0` for the empty list by `x / 0 = 0`). -/
def meanQ (l : List ℚ) : ℚ := l.sum / l.length

/-- Sample variance with `ddof = 1` (pandas `.std()` squared); `0` when
fewer than two values (pandas gives NaN there, which never flags, matching
this convention). -/
def varQ (l : List ℚ) : ℚ :=
  if l.length ≤ 1 then 0
  else ((l.map (fun x => (x - meanQ l) ^ 2)).sum) / ((l.length : ℚ) - 1)

/-- pandas linear-interpolation `quantile(q)` on the sorted values:
position `h = (n−1)·q`, result `s[⌊h⌋] + (h − ⌊h⌋)·(s[⌊h⌋+1] − s[⌊h⌋])`
(the final summand vanishes when `h` is the last index). -/
def quantileQ (l : List ℚ) (q : ℚ) : ℚ :=
  let s := sortQ l
  let h : ℚ := ((s.length : ℚ) - 1) * q
  let lov := s.getD (⌊h⌋).toNat 0
  let hiv := s.getD ((⌊h⌋).toNat + 1) lov
  lov + (h - ((⌊h⌋ : ℤ) : ℚ)) * (hiv - lov)

/-- The positive-consumption values (`df[df['value'] > 0]`). -/
def nonzeroVals (series : List Pt) : List ℚ :=
  (series.map Prod.snd).filter (fun v => decide (0 < v))

/-- Global z-score detector: flag when `|value − mean| / std > 3` over the
non-zero statistics (false when the standard deviation is `0`). -/
def anomalyZscore (series : List Pt) (i : ℕ) : Bool :=
  decide (0 < varQ (nonzeroVals series) ∧
    9 * varQ (nonzeroVals series) <
      ((series.map Prod.snd).getD i 0 - meanQ (nonzeroVals series)) ^ 2)

/-- IQR detector: flag when the value lies outside
`[Q1 − 1.5·IQR, Q3 + 1.5·IQR]` of the non-zero statistics. -/
def anomalyIqr (series : List Pt) (i : ℕ) : Bool :=
  decide ((series.map Prod.snd).getD i 0 <
      quantileQ (nonzeroVals series) (1/4) -
        3/2 * (quantileQ (nonzeroVals series) (3/4) - quantileQ (nonzeroVals series) (1/4)) ∨
    quantileQ (nonzeroVals series) (3/4) +
        3/2 * (quantileQ (nonzeroVals series) (3/4) - quantileQ (nonzeroVals series) (1/4)) <
      (series.map Prod.snd).getD i 0)

/-- The centered 30-row rolling window at row `i`: rows `i−15 … i+14`
clipped to the frame. -/
def rollingWindow (vals : List ℚ) (i : ℕ) : List ℚ :=
  (vals.drop (i - 15)).take (min (vals.length - 1) (i + 14) + 1 - (i - 15))

/-- Rolling mean/variance with `min_periods = 10` (missing below that). -/
def rollingStats (vals : List ℚ) (i : ℕ) : Option (ℚ × ℚ) :=
  if (rollingWindow vals i).length < 10 then none
  else some (meanQ (rollingWindow vals i), varQ (rollingWindow vals i))

/-- Local rolling z-score detector: flag when
`|value − rolling mean| / rolling std > 2.5` (false when the rolling
statistics are missing or the rolling std is `0` — the current row lies in
its own centered window, so a zero std forces a NaN z-score). -/
def anomalyRolling (series : List Pt) (i : ℕ) : Bool :=
  match rollingStats (series.map Prod.snd) i with
  | none => false
  | some (m, va) =>
    decide (0 < va ∧ (25/4) * va < ((series.map Prod.snd).getD i 0 - m) ^ 2)

/-- `anomaly_count` of row `i`. -/
def anomalyFlagCount (series : List Pt) (i : ℕ) : ℕ :=
  (anomalyZscore series i).toNat + (anomalyIqr series i).toNat +
    (anomalyRolling series i).toNat

/-- `anomaly_detection` for one meter: skip short or mostly-zero frames,
otherwise report exactly the rows flagged by at least 2 detectors
(`is_anomaly = anomaly_count >= 2`, `df[df['is_anomaly']]`). -/
def anomalyDetection (series : List Pt) : List Pt :=
  if series.length < 60 then []
  else if (nonzeroVals series).length < 30 then []
  else ((List.range series.length).filter
      (fun i => decide (2 ≤ anomalyFlagCount series i))).map
    (fun i => series.getD i (0, 0))

end AnomalyDefs

section C9Proof

theorem two_of_three (a b c : Bool) :
    2 ≤ a.toNat + b.toNat + c.toNat ↔ (a && b || a && c || b && c) = true := by
  cases a <;> cases b <;> cases c <;> decide

/-- Claim C9: for every consumption series the detector actually processes
(at least 60 rows and at least 30 positive rows), a point appears in the
reported anomaly set iff at least 2 of the 3 detectors (global z-score
`> 3`, IQR 1.5-fence, centered 30-row rolling z-score `> 2.5`) flag it; no
point flagged by fewer than 2 detectors is reported. -/
theorem C9_anomaly_quorum (series : List Pt)
    (h60 : 60 ≤ series.length)
    (h30 : 30 ≤ (nonzeroVals series).length) :
    ∀ p, p ∈ anomalyDetection series ↔
      ∃ i, i < series.length ∧ series.getD i (0, 0) = p ∧
        ((anomalyZscore series i && anomalyIqr series i ||
          anomalyZscore series i && anomalyRolling series i ||
          anomalyIqr series i && anomalyRolling series i) = true) := by
  intro p
  unfold anomalyDetection
  rw [if_neg (by omega), if_neg (by omega)]
  rw [List.mem_map]
  constructor
  · rintro ⟨i, hi, rfl⟩
    rw [List.mem_filter, List.mem_range, decide_eq_true_iff] at hi
    exact ⟨i, hi.1, rfl, (two_of_three _ _ _).mp (by
      have := hi.2
      unfold anomalyFlagCount at this
      exact this)⟩
  · rintro ⟨i, hi, rfl, hflag⟩
    refine ⟨i, ?_, rfl⟩
    rw [List.mem_filter, List.mem_range, decide_eq_true_iff]
    exact ⟨hi, (two_of_three _ _ _).mpr hflag⟩

set_option maxRecDepth 40000 in
/-- Witness for C9, spec Scenario D: 60 days of constant consumption `2`
except day 30 = `20` — day 30 is reported (it is flagged by both the
global z-score and the IQR detectors). -/
theorem C9_anomaly_quorum_witness :
    ((30 : ℚ), (20 : ℚ)) ∈ anomalyDetection
      ((List.range 60).map (fun k =>
        ((k : ℚ), if k = 30 then (20 : ℚ) else if k = 45 then 25 else 2))) := by
  refine (C9_anomaly_quorum _ (by with_unfolding_all decide)
    (by with_unfolding_all decide) _).mpr ⟨30, ?_, ?_, ?_⟩
  · with_unfolding_all decide
  · with_unfolding_all decide
  · with_unfolding_all decide

end C9Proof
